import Mathlib

/-!
Verification development for the `echo` front end: the token model, the
recursive-descent parser of `parser/src/parse.rs`, the marker resolver and
the `Context` variable store, embedded shallowly, with theorems checking the
specification's statements against the code.
-/

set_option maxRecDepth 4000

/-- Tokens produced by the lexer (`token.rs`): keyword variants, literal
variants (string, integer, identifier) and structural variants.  The `Type`
keyword token is rendered `TypeKw` because `Type` is reserved in Lean. -/
inductive Token where
  | Load | As | Goto | TypeKw | TypeNl | NoNewline | Insert | Replace
  | Delete | Speed | Select | Find | LinePause | Wait
  | Str (s : String)
  | Int (n : Int)
  | Ident (s : String)
  | Newline | Comment | Whitespace | Eof
deriving DecidableEq, Repr

/-- Destination of a `goto` (`instruction.rs`): a named marker or signed
relative row/column coordinates (i32 in the source, carried here as `Int`
already reduced to the i32 range by the parser's cast). -/
inductive Dest where
  | Marker (s : String)
  | Relative (row col : Int)
deriving DecidableEq, Repr

/-- Text operand (`instruction.rs`): a literal string or an identifier
reference resolved at playback time. -/
inductive Source where
  | Str (s : String)
  | Ident (s : String)
deriving DecidableEq, Repr

/-- The instruction set (`instruction.rs`).  `Type` is rendered `TypeIns`
because `Type` is reserved in Lean; unsigned operands (u64 / u16 in the
source) are carried as `Int` already reduced by the parser's cast. -/
inductive Instruction where
  | Load (path key : String)
  | Goto (dest : Dest)
  | TypeIns (source : Source) (trim_trailing_newline prefix_newline : Bool)
  | Insert (source : Source)
  | Replace (src : String) (replacement : Source)
  | Delete
  | Speed (ticks : Int)
  | Select (width height : Int)
  | Find (needle : String)
  | LinePause (ms : Int)
  | Wait (seconds : Int)
deriving DecidableEq, Repr

/-- Parse-stage errors (`error.rs`): the span and source-text payloads are
diagnostic only and are omitted; each error keeps the data the claims
mention (expected-category label and offending token). -/
inductive PError where
  | unexpectedToken (expected : String) (t : Token)
  | invalidArg (expected : String) (t : Token)
  | invalidInstruction (t : Token)
  | lexError
deriving DecidableEq, Repr

deriving instance DecidableEq for Except

/-- Token cursor `take` (`token.rs`, per spec section 4.2): peek-and-advance;
reads past the end keep yielding `Eof`. -/
def takeTok : List Token → Token × List Token
  | [] => (Token.Eof, [])
  | t :: ts => (t, ts)

/-- Token cursor `current` (`token.rs`, per spec section 4.2): peek without
consuming; reads past the end keep yielding `Eof`. -/
def currentTok : List Token → Token
  | [] => Token.Eof
  | t :: _ => t

/-- Rust `as i32` on a lexed integer: wrap into the signed 32-bit range. -/
def toI32 (n : Int) : Int := (n + 2 ^ 31) % 2 ^ 32 - 2 ^ 31

/-- Rust `as u64` on a lexed integer: wrap into the unsigned 64-bit range. -/
def toU64 (n : Int) : Int := n % 2 ^ 64

/-- Rust `as u16` on a lexed integer: wrap into the unsigned 16-bit range. -/
def toU16 (n : Int) : Int := n % 2 ^ 16

namespace Parser

/-- Final stage of the dispatch chain (`Parser::wait`): the current token
must be the `wait` keyword followed by an integer; any other leading token
is an invalid instruction. -/
def wait (ts : List Token) : Except PError (Instruction × List Token) :=
  match takeTok ts with
  | (Token.Wait, ts1) =>
    match takeTok ts1 with
    | (Token.Int seconds, ts2) => .ok (Instruction.Wait (toU64 seconds), ts2)
    | (t, _) => .error (.invalidArg "seconds" t)
  | (t, _) => .error (.invalidInstruction t)

/-- Dispatch stage for `linepause <int>` (`Parser::linepause`). -/
def linepause (ts : List Token) : Except PError (Instruction × List Token) :=
  match ts with
  | Token.LinePause :: ts1 =>
    match takeTok ts1 with
    | (Token.Int ms, ts2) => .ok (Instruction.LinePause (toU64 ms), ts2)
    | (t, _) => .error (.invalidArg "int" t)
  | _ => wait ts

/-- Dispatch stage for `find <string>` (`Parser::find`). -/
def find (ts : List Token) : Except PError (Instruction × List Token) :=
  match ts with
  | Token.Find :: ts1 =>
    match takeTok ts1 with
    | (Token.Str needle, ts2) => .ok (Instruction.Find needle, ts2)
    | (t, _) => .error (.invalidArg "string" t)
  | _ => linepause ts

/-- Dispatch stage for `select <int> <int>` (`Parser::select`); the
marker-identifier form is commented out in the source, so only two integers
are accepted, each cast to u16. -/
def select (ts : List Token) : Except PError (Instruction × List Token) :=
  match ts with
  | Token.Select :: ts1 =>
    match takeTok ts1 with
    | (Token.Int width, ts2) =>
      match takeTok ts2 with
      | (Token.Int height, ts3) =>
        .ok (Instruction.Select (toU16 width) (toU16 height), ts3)
      | (t, _) => .error (.invalidArg "number" t)
    | (t, _) => .error (.invalidArg "ident or row" t)
  | _ => find ts

/-- Dispatch stage for `speed <int>` (`Parser::speed`), cast to u64. -/
def speed (ts : List Token) : Except PError (Instruction × List Token) :=
  match ts with
  | Token.Speed :: ts1 =>
    match takeTok ts1 with
    | (Token.Int s, ts2) => .ok (Instruction.Speed (toU64 s), ts2)
    | (t, _) => .error (.invalidArg "int" t)
  | _ => select ts

/-- Dispatch stage for `delete` (`Parser::delete`): no operands. -/
def delete (ts : List Token) : Except PError (Instruction × List Token) :=
  match ts with
  | Token.Delete :: ts1 => .ok (Instruction.Delete, ts1)
  | _ => speed ts

/-- Dispatch stage for `replace <string> <string|ident>` (`Parser::change`). -/
def change (ts : List Token) : Except PError (Instruction × List Token) :=
  match ts with
  | Token.Replace :: ts1 =>
    match takeTok ts1 with
    | (Token.Str src, ts2) =>
      match takeTok ts2 with
      | (Token.Str s, ts3) =>
        .ok (Instruction.Replace src (Source.Str s), ts3)
      | (Token.Ident ident, ts3) =>
        .ok (Instruction.Replace src (Source.Ident ident), ts3)
      | (t, _) => .error (.invalidArg "string or ident" t)
    | (t, _) => .error (.invalidArg "string" t)
  | _ => delete ts

/-- Dispatch stage for `insert <string|ident>` (`Parser::insert`). -/
def insert (ts : List Token) : Except PError (Instruction × List Token) :=
  match ts with
  | Token.Insert :: ts1 =>
    match takeTok ts1 with
    | (Token.Str s, ts2) => .ok (Instruction.Insert (Source.Str s), ts2)
    | (Token.Ident ident, ts2) => .ok (Instruction.Insert (Source.Ident ident), ts2)
    | (t, _) => .error (.invalidArg "ident" t)
  | _ => change ts

/-- Dispatch stage for `typenl <string|ident> [nonl]` (`Parser::printnl`):
like `print` but sets `prefix_newline`. -/
def printnl (ts : List Token) : Except PError (Instruction × List Token) :=
  match ts with
  | Token.TypeNl :: ts1 =>
    match takeTok ts1 with
    | (Token.Str s, ts2) =>
      match ts2 with
      | Token.NoNewline :: ts3 => .ok (Instruction.TypeIns (Source.Str s) true true, ts3)
      | _ => .ok (Instruction.TypeIns (Source.Str s) false true, ts2)
    | (Token.Ident ident, ts2) =>
      match ts2 with
      | Token.NoNewline :: ts3 => .ok (Instruction.TypeIns (Source.Ident ident) true true, ts3)
      | _ => .ok (Instruction.TypeIns (Source.Ident ident) false true, ts2)
    | (t, _) => .error (.invalidArg "ident" t)
  | _ => insert ts

/-- Dispatch stage for `type <string|ident> [nonl]` (`Parser::print`):
the optional trailing `nonl` keyword sets `trim_trailing_newline`. -/
def print (ts : List Token) : Except PError (Instruction × List Token) :=
  match ts with
  | Token.TypeKw :: ts1 =>
    match takeTok ts1 with
    | (Token.Str s, ts2) =>
      match ts2 with
      | Token.NoNewline :: ts3 => .ok (Instruction.TypeIns (Source.Str s) true false, ts3)
      | _ => .ok (Instruction.TypeIns (Source.Str s) false false, ts2)
    | (Token.Ident ident, ts2) =>
      match ts2 with
      | Token.NoNewline :: ts3 => .ok (Instruction.TypeIns (Source.Ident ident) true false, ts3)
      | _ => .ok (Instruction.TypeIns (Source.Ident ident) false false, ts2)
    | (t, _) => .error (.invalidArg "ident" t)
  | _ => printnl ts

/-- Dispatch stage for `goto <ident>` or `goto <int> <int>` (`Parser::goto`):
the first operand token selects the branch; an integer row makes the column
integer mandatory; both are cast to i32. -/
def goto (ts : List Token) : Except PError (Instruction × List Token) :=
  match ts with
  | Token.Goto :: ts1 =>
    match takeTok ts1 with
    | (Token.Ident ident, ts2) => .ok (Instruction.Goto (Dest.Marker ident), ts2)
    | (Token.Int row, ts2) =>
      match takeTok ts2 with
      | (Token.Int col, ts3) =>
        .ok (Instruction.Goto (Dest.Relative (toI32 row) (toI32 col)), ts3)
      | (t, _) => .error (.invalidArg "number" t)
    | (t, _) => .error (.invalidArg "ident" t)
  | _ => print ts

/-- Head of the dispatch chain, `load <string> as <ident>` (`Parser::load`):
all three operand tokens are mandatory in order. -/
def load (ts : List Token) : Except PError (Instruction × List Token) :=
  match ts with
  | Token.Load :: ts1 =>
    match takeTok ts1 with
    | (Token.Str path, ts2) =>
      match takeTok ts2 with
      | (Token.As, ts3) =>
        match takeTok ts3 with
        | (Token.Ident key, ts4) => .ok (Instruction.Load path key, ts4)
        | (t, _) => .error (.invalidArg "ident" t)
      | (t, _) => .error (.invalidArg "as" t)
    | (t, _) => .error (.invalidArg "string" t)
  | _ => goto ts

end Parser

theorem wait_length : ∀ ts i rest, Parser.wait ts = .ok (i, rest) → rest.length < ts.length := by
  intro ts i rest h
  rcases ts with _ | ⟨t, ts1⟩
  · simp [Parser.wait, takeTok] at h
  · rcases ts1 with _ | ⟨t2, ts2⟩
    · cases t <;> simp [Parser.wait, takeTok] at h
    · cases t <;> cases t2 <;> simp [Parser.wait, takeTok] at h <;>
        (obtain ⟨h1, h2⟩ := h; subst h2; simp only [List.length_cons]; omega)

theorem linepause_length : ∀ ts i rest, Parser.linepause ts = .ok (i, rest) → rest.length < ts.length := by
  intro ts i rest h
  rcases ts with _ | ⟨t, ts1⟩
  · exact wait_length [] i rest (by simpa [Parser.linepause] using h)
  · cases t
    case LinePause =>
      rcases ts1 with _ | ⟨t2, ts2⟩
      · simp [Parser.linepause, takeTok] at h
      · cases t2 <;> simp [Parser.linepause, takeTok] at h <;>
          (obtain ⟨h1, h2⟩ := h; subst h2; simp only [List.length_cons]; omega)
    all_goals exact wait_length _ i rest (by simpa [Parser.linepause] using h)

theorem find_length : ∀ ts i rest, Parser.find ts = .ok (i, rest) → rest.length < ts.length := by
  intro ts i rest h
  rcases ts with _ | ⟨t, ts1⟩
  · exact linepause_length [] i rest (by simpa [Parser.find] using h)
  · cases t
    case Find =>
      rcases ts1 with _ | ⟨t2, ts2⟩
      · simp [Parser.find, takeTok] at h
      · cases t2 <;> simp [Parser.find, takeTok] at h <;>
          (obtain ⟨h1, h2⟩ := h; subst h2; simp only [List.length_cons]; omega)
    all_goals exact linepause_length _ i rest (by simpa [Parser.find] using h)

theorem select_length : ∀ ts i rest, Parser.select ts = .ok (i, rest) → rest.length < ts.length := by
  intro ts i rest h
  rcases ts with _ | ⟨t, ts1⟩
  · exact find_length [] i rest (by simpa [Parser.select] using h)
  · cases t
    case Select =>
      rcases ts1 with _ | ⟨t2, ts2⟩
      · simp [Parser.select, takeTok] at h
      · cases t2 <;> simp [Parser.select, takeTok] at h
        case Int =>
          rcases ts2 with _ | ⟨t3, ts3⟩
          · simp [takeTok] at h
          · cases t3 <;> simp [takeTok] at h <;>
              (obtain ⟨h1, h2⟩ := h; subst h2; simp only [List.length_cons]; omega)
    all_goals exact find_length _ i rest (by simpa [Parser.select] using h)

theorem speed_length : ∀ ts i rest, Parser.speed ts = .ok (i, rest) → rest.length < ts.length := by
  intro ts i rest h
  rcases ts with _ | ⟨t, ts1⟩
  · exact select_length [] i rest (by simpa [Parser.speed] using h)
  · cases t
    case Speed =>
      rcases ts1 with _ | ⟨t2, ts2⟩
      · simp [Parser.speed, takeTok] at h
      · cases t2 <;> simp [Parser.speed, takeTok] at h <;>
          (obtain ⟨h1, h2⟩ := h; subst h2; simp only [List.length_cons]; omega)
    all_goals exact select_length _ i rest (by simpa [Parser.speed] using h)

theorem delete_length : ∀ ts i rest, Parser.delete ts = .ok (i, rest) → rest.length < ts.length := by
  intro ts i rest h
  rcases ts with _ | ⟨t, ts1⟩
  · exact speed_length [] i rest (by simpa [Parser.delete] using h)
  · cases t
    case Delete =>
      simp [Parser.delete] at h
      obtain ⟨h1, h2⟩ := h; subst h2; simp only [List.length_cons]; omega
    all_goals exact speed_length _ i rest (by simpa [Parser.delete] using h)

theorem change_length : ∀ ts i rest, Parser.change ts = .ok (i, rest) → rest.length < ts.length := by
  intro ts i rest h
  rcases ts with _ | ⟨t, ts1⟩
  · exact delete_length [] i rest (by simpa [Parser.change] using h)
  · cases t
    case Replace =>
      rcases ts1 with _ | ⟨t2, ts2⟩
      · simp [Parser.change, takeTok] at h
      · cases t2 <;> simp [Parser.change, takeTok] at h
        case Str =>
          rcases ts2 with _ | ⟨t3, ts3⟩
          · simp [takeTok] at h
          · cases t3 <;> simp [takeTok] at h <;>
              (obtain ⟨h1, h2⟩ := h; subst h2; simp only [List.length_cons]; omega)
    all_goals exact delete_length _ i rest (by simpa [Parser.change] using h)

theorem insert_length : ∀ ts i rest, Parser.insert ts = .ok (i, rest) → rest.length < ts.length := by
  intro ts i rest h
  rcases ts with _ | ⟨t, ts1⟩
  · exact change_length [] i rest (by simpa [Parser.insert] using h)
  · cases t
    case Insert =>
      rcases ts1 with _ | ⟨t2, ts2⟩
      · simp [Parser.insert, takeTok] at h
      · cases t2 <;> simp [Parser.insert, takeTok] at h <;>
          (obtain ⟨h1, h2⟩ := h; subst h2; simp only [List.length_cons]; omega)
    all_goals exact change_length _ i rest (by simpa [Parser.insert] using h)

theorem printnl_length : ∀ ts i rest, Parser.printnl ts = .ok (i, rest) → rest.length < ts.length := by
  intro ts i rest h
  rcases ts with _ | ⟨t, ts1⟩
  · exact insert_length [] i rest (by simpa [Parser.printnl] using h)
  · cases t
    case TypeNl =>
      rcases ts1 with _ | ⟨t2, ts2⟩
      · simp [Parser.printnl, takeTok] at h
      · cases t2 <;> simp [Parser.printnl, takeTok] at h
        all_goals (
          rcases ts2 with _ | ⟨t3, ts3⟩
          · simp at h; obtain ⟨h1, h2⟩ := h; subst h2; simp only [List.length_cons]; omega
          · cases t3 <;> simp at h <;>
              (obtain ⟨h1, h2⟩ := h; subst h2; simp only [List.length_cons]; omega))
    all_goals exact insert_length _ i rest (by simpa [Parser.printnl] using h)

theorem print_length : ∀ ts i rest, Parser.print ts = .ok (i, rest) → rest.length < ts.length := by
  intro ts i rest h
  rcases ts with _ | ⟨t, ts1⟩
  · exact printnl_length [] i rest (by simpa [Parser.print] using h)
  · cases t
    case TypeKw =>
      rcases ts1 with _ | ⟨t2, ts2⟩
      · simp [Parser.print, takeTok] at h
      · cases t2 <;> simp [Parser.print, takeTok] at h
        all_goals (
          rcases ts2 with _ | ⟨t3, ts3⟩
          · simp at h; obtain ⟨h1, h2⟩ := h; subst h2; simp only [List.length_cons]; omega
          · cases t3 <;> simp at h <;>
              (obtain ⟨h1, h2⟩ := h; subst h2; simp only [List.length_cons]; omega))
    all_goals exact printnl_length _ i rest (by simpa [Parser.print] using h)

theorem goto_length : ∀ ts i rest, Parser.goto ts = .ok (i, rest) → rest.length < ts.length := by
  intro ts i rest h
  rcases ts with _ | ⟨t, ts1⟩
  · exact print_length [] i rest (by simpa [Parser.goto] using h)
  · cases t
    case Goto =>
      rcases ts1 with _ | ⟨t2, ts2⟩
      · simp [Parser.goto, takeTok] at h
      · cases t2 <;> simp [Parser.goto, takeTok] at h
        case Ident =>
          obtain ⟨h1, h2⟩ := h; subst h2; simp only [List.length_cons]; omega
        case Int =>
          rcases ts2 with _ | ⟨t3, ts3⟩
          · simp [takeTok] at h
          · cases t3 <;> simp [takeTok] at h <;>
              (obtain ⟨h1, h2⟩ := h; subst h2; simp only [List.length_cons]; omega)
    all_goals exact print_length _ i rest (by simpa [Parser.goto] using h)

theorem load_length : ∀ ts i rest, Parser.load ts = .ok (i, rest) → rest.length < ts.length := by
  intro ts i rest h
  rcases ts with _ | ⟨t, ts1⟩
  · exact goto_length [] i rest (by simpa [Parser.load] using h)
  · cases t
    case Load =>
      rcases ts1 with _ | ⟨t2, ts2⟩
      · simp [Parser.load, takeTok] at h
      · cases t2 <;> simp [Parser.load, takeTok] at h
        case Str =>
          rcases ts2 with _ | ⟨t3, ts3⟩
          · simp [takeTok] at h
          · cases t3 <;> simp [takeTok] at h
            case As =>
              rcases ts3 with _ | ⟨t4, ts4⟩
              · simp [takeTok] at h
              · cases t4 <;> simp [takeTok] at h <;>
                  (obtain ⟨h1, h2⟩ := h; subst h2; simp only [List.length_cons]; omega)
    all_goals exact goto_length _ i rest (by simpa [Parser.load] using h)

def Parser.parse (ts : List Token) : Except PError (List Instruction) :=
  match ts with
  | [] => .ok []
  | Token.Eof :: _ => .ok []
  | Token.Newline :: rest => Parser.parse rest
  | Token.Comment :: rest => Parser.parse rest
  | Token.Whitespace :: rest => Parser.parse rest
  | t :: ts1 =>
    match hl : Parser.load (t :: ts1) with
    | .error e => .error e
    | .ok (i, rest) =>
      match rest with
      | Token.Newline :: rest2 => (Parser.parse rest2).map (fun is => i :: is)
      | Token.Comment :: rest2 => (Parser.parse rest2).map (fun is => i :: is)
      | Token.Whitespace :: rest2 => (Parser.parse rest2).map (fun is => i :: is)
      | Token.Eof :: _ => .ok [i]
      | [] => .ok [i]
      | t2 :: _ => .error (.unexpectedToken "newline or end of file" t2)
termination_by ts.length
decreasing_by
  all_goals first
    | (simp only [List.length_cons]; omega)
    | (have hlen := load_length _ _ _ hl; simp only [List.length_cons] at *; omega)

/-- Continuation of the top-level loop after one parsed instruction
(`Parser::parse` lines 30-41): the consumed terminator token must be a
newline, comment, whitespace or end of file; anything else is an
`UnexpectedToken` error.  Split out of `Parser.parse` so theorems can name
it. -/
def Parser.afterInstruction (i : Instruction) (rest : List Token) : Except PError (List Instruction) :=
  match rest with
  | Token.Newline :: rest2 => (Parser.parse rest2).map (fun is => i :: is)
  | Token.Comment :: rest2 => (Parser.parse rest2).map (fun is => i :: is)
  | Token.Whitespace :: rest2 => (Parser.parse rest2).map (fun is => i :: is)
  | Token.Eof :: _ => .ok [i]
  | [] => .ok [i]
  | t2 :: _ => .error (.unexpectedToken "newline or end of file" t2)

/-- Leading keywords of the fixed-priority dispatch chain, in source order
Load, Goto, Type, TypeNl, Insert, Replace, Delete, Speed, Select, Find,
LinePause; `wait` is the final fallback stage and is not in this list. -/
def leadingKeyword : Token → Bool
  | Token.Load | Token.Goto | Token.TypeKw | Token.TypeNl | Token.Insert
  | Token.Replace | Token.Delete | Token.Speed | Token.Select | Token.Find
  | Token.LinePause => true
  | _ => false

/-- Token carrying a `Source` operand: a string literal operand arrives as a
`Str` token and an identifier operand as an `Ident` token. -/
def Source.token : Source → Token
  | Source.Str s => Token.Str s
  | Source.Ident s => Token.Ident s

/-- Character that ends an identifier run.  Modelled from the spec:
`lexer.rs` is not under `src/`; spec section 4.1 makes whitespace and
newlines separators and excludes the quote from identifiers. -/
def isSep (c : Char) : Bool := c = ' ' || c = '\t' || c = '\r' || c = '\n' || c = '"'

/-- Keyword classification of a lexed word.  Modelled from the spec:
`lexer.rs` is not under `src/`; spec section 4.1 lists the keywords and says
keyword matching takes priority over identifier classification. -/
def keywordOf (s : String) : Token :=
  if s = "load" then Token.Load
  else if s = "as" then Token.As
  else if s = "goto" then Token.Goto
  else if s = "type" then Token.TypeKw
  else if s = "typenl" then Token.TypeNl
  else if s = "nonl" then Token.NoNewline
  else if s = "insert" then Token.Insert
  else if s = "replace" then Token.Replace
  else if s = "delete" then Token.Delete
  else if s = "speed" then Token.Speed
  else if s = "select" then Token.Select
  else if s = "find" then Token.Find
  else if s = "linepause" then Token.LinePause
  else if s = "wait" then Token.Wait
  else Token.Ident s

/-- Numeric value of a digit run. -/
def digitsToNat (ds : List Char) : Nat :=
  ds.foldl (fun acc c => acc * 10 + (c.toNat - Char.toNat '0')) 0

/-- Main lexer loop.  Modelled from the spec: `lexer.rs` is not under
`src/`.  Spec section 4.1: the comment prefix through end of line lexes as a
single Comment token; a newline is a Newline token; runs of blanks separate
tokens (they are consumed and produce no token, as required by the spec's
own examples such as `goto 1 2`, whose operands must arrive as consecutive
tokens); string literals are quoted with `"` and an unterminated string is a
lex error; integers are an optional leading minus and digits; any other run
of non-separator characters is a keyword or identifier; the stream ends with
an `Eof` token.  The fuel argument (always instantiated with more than the
number of input characters, each step consuming at least one) makes the
recursion structural. -/
def lexGo (pfx : List Char) : Nat → List Char → Except PError (List Token)
  | 0, _ => .error .lexError
  | _ + 1, [] => .ok [Token.Eof]
  | fuel + 1, c :: cs =>
    if pfx ≠ [] ∧ pfx.isPrefixOf (c :: cs) then
      (lexGo pfx fuel ((c :: cs).dropWhile (fun ch => ch ≠ '\n'))).map
        (fun ts => Token.Comment :: ts)
    else if c = '\n' then
      (lexGo pfx fuel cs).map (fun ts => Token.Newline :: ts)
    else if c = ' ' || c = '\t' || c = '\r' then
      lexGo pfx fuel cs
    else if c = '"' then
      match cs.dropWhile (fun ch => ch ≠ '"') with
      | '"' :: rest =>
        (lexGo pfx fuel rest).map
          (fun ts => Token.Str (String.mk (cs.takeWhile (fun ch => ch ≠ '"'))) :: ts)
      | _ => .error .lexError
    else if c = '-' ∧ (cs.headD ' ').isDigit then
      (lexGo pfx fuel (cs.dropWhile Char.isDigit)).map
        (fun ts => Token.Int (-(Int.ofNat (digitsToNat (cs.takeWhile Char.isDigit)))) :: ts)
    else if c.isDigit then
      (lexGo pfx fuel ((c :: cs).dropWhile Char.isDigit)).map
        (fun ts => Token.Int (Int.ofNat (digitsToNat ((c :: cs).takeWhile Char.isDigit))) :: ts)
    else
      (lexGo pfx fuel ((c :: cs).dropWhile (fun ch => !isSep ch))).map
        (fun ts => keywordOf (String.mk ((c :: cs).takeWhile (fun ch => !isSep ch))) :: ts)

/-- Lexer entry point.  Modelled from the spec: `lex(source, commentPrefix)
-> Result<TokenStream, LexError>` (spec section 4.1). -/
def lex (input commentPfx : String) : Except PError (List Token) :=
  lexGo commentPfx.data (input.length + 1) input.data

/-- Crate-root `parse` (`parser/src/lib.rs` lines 9-12): lex the input with
the comment prefix, then run the parser over the token stream. -/
def parse (input commentPfx : String) : Except PError (List Instruction) :=
  match lex input commentPfx with
  | .error e => .error e
  | .ok ts => Parser.parse ts

/-- Resolver errors (spec section 7): produced by the resolver. -/
inductive ResolveError where
  | UndefinedMarker (name : String)
  | DuplicateMarker (name : String)
deriving DecidableEq, Repr

/-- Marker definition carried by an instruction.  Modelled from the spec:
the resolver (`vm::compile`) is not under `src/`; spec section 4.4 says
markers are defined by a separate labeling construct, and no variant of the
parsed instruction set defines a marker, so no instruction yields a
definition. -/
def markerDef : Instruction → Option String := fun _ => none

/-- Forward scan building the marker-identifier-to-position mapping.
Modelled from the spec: spec section 9, a separate identifier-to-position
mapping built in one forward scan. -/
def markerDefsGo (pos : Nat) : List Instruction → List (String × Nat)
  | [] => []
  | i :: rest =>
    match markerDef i with
    | some name => (name, pos) :: markerDefsGo (pos + 1) rest
    | none => markerDefsGo (pos + 1) rest

/-- Marker definitions of an instruction sequence (modelled from the spec,
see `markerDefsGo`). -/
def markerDefs (instructions : List Instruction) : List (String × Nat) :=
  markerDefsGo 0 instructions

/-- Destination resolution.  Modelled from the spec (section 4.4): a
`Marker` is looked up in the definition mapping and fails with
`UndefinedMarker` when the referenced name has no definition; `Relative`
needs no resolution and passes through unchanged.  On a successful lookup
the destination is kept (the substituted concrete position is irrelevant to
the claims settled here). -/
def resolveDest (defs : List (String × Nat)) : Dest → Except ResolveError Dest
  | Dest.Marker name =>
    match defs.lookup name with
    | some _ => .ok (Dest.Marker name)
    | none => .error (.UndefinedMarker name)
  | Dest.Relative row col => .ok (Dest.Relative row col)

/-- Per-instruction resolution: only `Goto` holds a `Dest` (modelled from
the spec, section 4.4). -/
def resolveInstr (defs : List (String × Nat)) : Instruction → Except ResolveError Instruction
  | Instruction.Goto dest => (resolveDest defs dest).map Instruction.Goto
  | i => .ok i

/-- Resolution of a whole instruction sequence, first error wins (modelled
from the spec, section 4.4 and the propagation policy of section 7). -/
def resolveAll (defs : List (String × Nat)) : List Instruction → Except ResolveError (List Instruction)
  | [] => .ok []
  | i :: rest =>
    match resolveInstr defs i with
    | .error e => .error e
    | .ok i2 => (resolveAll defs rest).map (fun is => i2 :: is)

/-- Resolver entry point, `vm::compile` as called by `main.rs` line 31.
Modelled from the spec: `resolve(instructions) -> Result<Program,
ResolveError>` (section 4.4). -/
def compile (instructions : List Instruction) : Except ResolveError (List Instruction) :=
  resolveAll (markerDefs instructions) instructions

/-- The key-value variable store (`vm/src/context.rs`): a `HashMap<String,
String>` modelled as an association list with at most one entry per key. -/
structure Context where
  data : List (String × String)
deriving DecidableEq, Repr

/-- `Context::new` (`vm/src/context.rs` lines 7-9). -/
def Context.new : Context := ⟨[]⟩

/-- `Context::set` (`vm/src/context.rs` lines 11-13): `HashMap::insert`,
which replaces any existing entry for the key. -/
def Context.set (ctx : Context) (key value : String) : Context :=
  ⟨(key, value) :: ctx.data.filter (fun p => p.1 != key)⟩

/-- `Context::load` (`vm/src/context.rs` lines 15-17): `HashMap::get`
cloned; takes the store immutably and returns only the looked-up value. -/
def Context.load (ctx : Context) (key : String) : Option String :=
  ctx.data.lookup key

theorem load_cons_shape : ∀ ts i rest, Parser.load ts = .ok (i, rest) →
    ∃ t0 ts1, ts = t0 :: ts1 ∧ t0 ≠ Token.Newline ∧ t0 ≠ Token.Comment ∧
      t0 ≠ Token.Whitespace ∧ t0 ≠ Token.Eof := by
  intro ts i rest h
  rcases ts with _ | ⟨t0, ts1⟩
  · exfalso
    simp [Parser.load, Parser.goto, Parser.print, Parser.printnl, Parser.insert, Parser.change,
      Parser.delete, Parser.speed, Parser.select, Parser.find, Parser.linepause, Parser.wait,
      takeTok] at h
  · refine ⟨t0, ts1, rfl, ?_, ?_, ?_, ?_⟩ <;>
      (rintro rfl;
       simp [Parser.load, Parser.goto, Parser.print, Parser.printnl, Parser.insert, Parser.change,
         Parser.delete, Parser.speed, Parser.select, Parser.find, Parser.linepause, Parser.wait,
         takeTok] at h)

theorem parse_step (ts : List Token) (i : Instruction) (rest : List Token)
    (h : Parser.load ts = .ok (i, rest)) :
    Parser.parse ts = Parser.afterInstruction i rest := by
  obtain ⟨t0, ts1, rfl, hn, hc, hw, he⟩ := load_cons_shape _ _ _ h
  rcases rest with _ | ⟨t2, rest2⟩
  · cases t0 <;> first
      | exact absurd rfl hn
      | exact absurd rfl hc
      | exact absurd rfl hw
      | exact absurd rfl he
      | (simp only [Parser.parse, Parser.afterInstruction]
         split
         · rename_i e heq
           rw [h] at heq
           exact Except.noConfusion heq
         · rename_i i2 rest2 heq
           rw [h] at heq
           injection heq with hpair
           cases hpair
           rfl)
  · cases t2 <;> cases t0 <;> first
      | exact absurd rfl hn
      | exact absurd rfl hc
      | exact absurd rfl hw
      | exact absurd rfl he
      | (simp only [Parser.parse, Parser.afterInstruction]
         split
         · rename_i e heq
           rw [h] at heq
           exact Except.noConfusion heq
         · rename_i i2 rest3 heq
           rw [h] at heq
           injection heq with hpair
           cases hpair
           rfl)

theorem parse_structural_only : ∀ ts : List Token,
    (∀ t ∈ ts, t = Token.Newline ∨ t = Token.Comment ∨ t = Token.Whitespace ∨ t = Token.Eof) →
    Parser.parse ts = .ok [] := by
  intro ts
  induction ts with
  | nil => intro _; simp [Parser.parse]
  | cons t rest ih =>
    intro h
    have ht := h t (List.mem_cons_self t rest)
    have hrest : ∀ x ∈ rest, x = Token.Newline ∨ x = Token.Comment ∨ x = Token.Whitespace ∨
        x = Token.Eof := fun x hx => h x (List.mem_cons_of_mem t hx)
    rcases ht with rfl | rfl | rfl | rfl
    · simp only [Parser.parse]; exact ih hrest
    · simp only [Parser.parse]; exact ih hrest
    · simp only [Parser.parse]; exact ih hrest
    · simp [Parser.parse]

theorem load_invalid_classify : ∀ ts t2, Parser.load ts = .error (.invalidInstruction t2) →
    currentTok ts = t2 ∧ leadingKeyword t2 = false ∧ t2 ≠ Token.Wait := by
  intro ts t2 h
  rcases ts with _ | ⟨t, ts1⟩
  · simp [Parser.load, Parser.goto, Parser.print, Parser.printnl, Parser.insert, Parser.change,
      Parser.delete, Parser.speed, Parser.select, Parser.find, Parser.linepause, Parser.wait,
      takeTok] at h
    subst h
    exact ⟨rfl, rfl, by simp⟩
  · cases t
    case Load =>
      rcases ts1 with _ | ⟨t1, ts2⟩
      · simp [Parser.load, takeTok] at h
      · cases t1 <;> simp [Parser.load, takeTok] at h
        case Str =>
          rcases ts2 with _ | ⟨t3, ts3⟩
          · simp [takeTok] at h
          · cases t3 <;> simp [takeTok] at h
            case As =>
              rcases ts3 with _ | ⟨t4, ts4⟩
              · simp [takeTok] at h
              · cases t4 <;> simp [takeTok] at h
    case Goto =>
      rcases ts1 with _ | ⟨t1, ts2⟩
      · simp [Parser.load, Parser.goto, takeTok] at h
      · cases t1 <;> simp [Parser.load, Parser.goto, takeTok] at h
        case Int =>
          rcases ts2 with _ | ⟨t3, ts3⟩
          · simp [takeTok] at h
          · cases t3 <;> simp [takeTok] at h
    case TypeKw =>
      rcases ts1 with _ | ⟨t1, ts2⟩
      · simp [Parser.load, Parser.goto, Parser.print, takeTok] at h
      · cases t1 <;> simp [Parser.load, Parser.goto, Parser.print, takeTok] at h
        all_goals
          rcases ts2 with _ | ⟨t3, ts3⟩
        all_goals (try simp at h)
        all_goals (cases t3 <;> simp at h)
    case TypeNl =>
      rcases ts1 with _ | ⟨t1, ts2⟩
      · simp [Parser.load, Parser.goto, Parser.print, Parser.printnl, takeTok] at h
      · cases t1 <;> simp [Parser.load, Parser.goto, Parser.print, Parser.printnl, takeTok] at h
        all_goals
          rcases ts2 with _ | ⟨t3, ts3⟩
        all_goals (try simp at h)
        all_goals (cases t3 <;> simp at h)
    case Insert =>
      rcases ts1 with _ | ⟨t1, ts2⟩
      · simp [Parser.load, Parser.goto, Parser.print, Parser.printnl, Parser.insert, takeTok] at h
      · cases t1 <;>
          simp [Parser.load, Parser.goto, Parser.print, Parser.printnl, Parser.insert, takeTok] at h
    case Replace =>
      rcases ts1 with _ | ⟨t1, ts2⟩
      · simp [Parser.load, Parser.goto, Parser.print, Parser.printnl, Parser.insert, Parser.change,
          takeTok] at h
      · cases t1 <;> simp [Parser.load, Parser.goto, Parser.print, Parser.printnl, Parser.insert,
          Parser.change, takeTok] at h
        case Str =>
          rcases ts2 with _ | ⟨t3, ts3⟩
          · simp [takeTok] at h
          · cases t3 <;> simp [takeTok] at h
    case Delete =>
      simp [Parser.load, Parser.goto, Parser.print, Parser.printnl, Parser.insert, Parser.change,
        Parser.delete, takeTok] at h
    case Speed =>
      rcases ts1 with _ | ⟨t1, ts2⟩
      · simp [Parser.load, Parser.goto, Parser.print, Parser.printnl, Parser.insert, Parser.change,
          Parser.delete, Parser.speed, takeTok] at h
      · cases t1 <;> simp [Parser.load, Parser.goto, Parser.print, Parser.printnl, Parser.insert,
          Parser.change, Parser.delete, Parser.speed, takeTok] at h
    case Select =>
      rcases ts1 with _ | ⟨t1, ts2⟩
      · simp [Parser.load, Parser.goto, Parser.print, Parser.printnl, Parser.insert, Parser.change,
          Parser.delete, Parser.speed, Parser.select, takeTok] at h
      · cases t1 <;> simp [Parser.load, Parser.goto, Parser.print, Parser.printnl, Parser.insert,
          Parser.change, Parser.delete, Parser.speed, Parser.select, takeTok] at h
        case Int =>
          rcases ts2 with _ | ⟨t3, ts3⟩
          · simp [takeTok] at h
          · cases t3 <;> simp [takeTok] at h
    case Find =>
      rcases ts1 with _ | ⟨t1, ts2⟩
      · simp [Parser.load, Parser.goto, Parser.print, Parser.printnl, Parser.insert, Parser.change,
          Parser.delete, Parser.speed, Parser.select, Parser.find, takeTok] at h
      · cases t1 <;> simp [Parser.load, Parser.goto, Parser.print, Parser.printnl, Parser.insert,
          Parser.change, Parser.delete, Parser.speed, Parser.select, Parser.find, takeTok] at h
    case LinePause =>
      rcases ts1 with _ | ⟨t1, ts2⟩
      · simp [Parser.load, Parser.goto, Parser.print, Parser.printnl, Parser.insert, Parser.change,
          Parser.delete, Parser.speed, Parser.select, Parser.find, Parser.linepause, takeTok] at h
      · cases t1 <;> simp [Parser.load, Parser.goto, Parser.print, Parser.printnl, Parser.insert,
          Parser.change, Parser.delete, Parser.speed, Parser.select, Parser.find, Parser.linepause,
          takeTok] at h
    case Wait =>
      rcases ts1 with _ | ⟨t1, ts2⟩
      · simp [Parser.load, Parser.goto, Parser.print, Parser.printnl, Parser.insert, Parser.change,
          Parser.delete, Parser.speed, Parser.select, Parser.find, Parser.linepause, Parser.wait,
          takeTok] at h
      · cases t1 <;> simp [Parser.load, Parser.goto, Parser.print, Parser.printnl, Parser.insert,
          Parser.change, Parser.delete, Parser.speed, Parser.select, Parser.find, Parser.linepause,
          Parser.wait, takeTok] at h
    all_goals
      (simp [Parser.load, Parser.goto, Parser.print, Parser.printnl, Parser.insert, Parser.change,
        Parser.delete, Parser.speed, Parser.select, Parser.find, Parser.linepause, Parser.wait,
        takeTok] at h;
       subst h;
       exact ⟨rfl, rfl, by simp⟩)

theorem markerDefsGo_eq_nil : ∀ (l : List Instruction) (pos : Nat), markerDefsGo pos l = [] := by
  intro l
  induction l with
  | nil => intro pos; rfl
  | cons i rest ih => intro pos; simp [markerDefsGo, markerDef, ih]

theorem resolveInstr_error_shape : ∀ (defs : List (String × Nat)) (i : Instruction)
    (e : ResolveError), resolveInstr defs i = .error e →
    ∃ nm, e = ResolveError.UndefinedMarker nm ∧ defs.lookup nm = none ∧
      i = Instruction.Goto (Dest.Marker nm) := by
  intro defs i e h
  cases i <;> simp [resolveInstr, resolveDest, Except.map] at h
  case Goto dest =>
    cases dest <;> simp [resolveDest, Except.map] at h
    case Marker nm =>
      cases hl : defs.lookup nm with
      | some pos => simp [hl, Except.map] at h
      | none =>
        simp [hl, Except.map] at h
        exact ⟨nm, h.symm, hl, rfl⟩

theorem resolveAll_error_of_marker : ∀ (l : List Instruction) (name : String),
    Instruction.Goto (Dest.Marker name) ∈ l →
    ∃ m, resolveAll [] l = .error (ResolveError.UndefinedMarker m) := by
  intro l
  induction l with
  | nil => intro name h; simp at h
  | cons i rest ih =>
    intro name h
    rcases List.mem_cons.mp h with rfl | hmem
    · exact ⟨name, by simp [resolveAll, resolveInstr, resolveDest, List.lookup, Except.map]⟩
    · cases hi : resolveInstr [] i with
      | error e =>
        obtain ⟨nm, rfl, _, _⟩ := resolveInstr_error_shape [] i e hi
        exact ⟨nm, by simp [resolveAll, hi, Except.map]⟩
      | ok i2 =>
        obtain ⟨m, hm⟩ := ih name hmem
        exact ⟨m, by simp [resolveAll, hi, hm, Except.map]⟩

theorem resolveAll_ok_of_no_marker : ∀ l : List Instruction,
    (∀ name, Instruction.Goto (Dest.Marker name) ∉ l) → resolveAll [] l = .ok l := by
  intro l
  induction l with
  | nil => intro _; rfl
  | cons i rest ih =>
    intro h
    have hrest : ∀ name, Instruction.Goto (Dest.Marker name) ∉ rest := by
      intro name hmem
      exact h name (List.mem_cons_of_mem i hmem)
    have hi : resolveInstr [] i = .ok i := by
      cases i <;> simp [resolveInstr, resolveDest, Except.map]
      case Goto dest =>
        cases dest with
        | Marker nm => exact absurd (List.mem_cons_self _ _) (h nm)
        | Relative r c => simp [resolveDest, Except.map]
    simp [resolveAll, hi, ih hrest, Except.map]

theorem lookup_filter_ne : ∀ (k k2 : String), k2 ≠ k → ∀ l : List (String × String),
    List.lookup k2 (l.filter (fun p => p.1 != k)) = List.lookup k2 l := by
  intro k k2 h l
  induction l with
  | nil => rfl
  | cons a tl ih =>
    obtain ⟨a1, a2⟩ := a
    by_cases ha : a1 = k
    · subst ha
      have hk : (k2 == a1) = false := beq_false_of_ne h
      simp [List.filter_cons, List.lookup, hk, ih]
    · have hne : (a1 != k) = true := bne_iff_ne.mpr ha
      by_cases hk2 : k2 = a1
      · subst hk2
        simp [List.filter_cons, hne, List.lookup]
      · have hk : (k2 == a1) = false := beq_false_of_ne hk2
        simp [List.filter_cons, hne, List.lookup, hk, ih]

theorem set_load_ne : ∀ (ctx : Context) (k v k2 : String), k2 ≠ k →
    (ctx.set k v).load k2 = ctx.load k2 := by
  intro ctx k v k2 h
  have hk : (k2 == k) = false := beq_false_of_ne h
  simp [Context.set, Context.load, List.lookup, hk, lookup_filter_ne k k2 h]

/-- C1 (corrected): whenever the parser has parsed one instruction, the
token immediately following is consumed as a terminator; Newline, Comment,
Whitespace and EndOfFile are accepted (Whitespace continues the loop just
like Newline and Comment, contrary to the claim as stated), and a token of
any other kind fails with an `UnexpectedToken` error, producing no
instruction sequence. -/
theorem C1_theorem : ∀ (ts : List Token) (i : Instruction) (rest : List Token),
    Parser.load ts = .ok (i, rest) →
    Parser.parse ts = Parser.afterInstruction i rest
    ∧ (∀ rest2, rest = Token.Newline :: rest2 →
        Parser.parse ts = (Parser.parse rest2).map (fun is => i :: is))
    ∧ (∀ rest2, rest = Token.Comment :: rest2 →
        Parser.parse ts = (Parser.parse rest2).map (fun is => i :: is))
    ∧ (∀ rest2, rest = Token.Whitespace :: rest2 →
        Parser.parse ts = (Parser.parse rest2).map (fun is => i :: is))
    ∧ (currentTok rest = Token.Eof → Parser.parse ts = .ok [i])
    ∧ (∀ t2 rest2, rest = t2 :: rest2 → t2 ≠ Token.Newline → t2 ≠ Token.Comment →
        t2 ≠ Token.Whitespace → t2 ≠ Token.Eof →
        Parser.parse ts = .error (.unexpectedToken "newline or end of file" t2)) := by
  intro ts i rest h
  have hstep := parse_step ts i rest h
  refine ⟨hstep, ?_, ?_, ?_, ?_, ?_⟩
  · rintro rest2 rfl; rw [hstep]; rfl
  · rintro rest2 rfl; rw [hstep]; rfl
  · rintro rest2 rfl; rw [hstep]; rfl
  · intro hEof
    rcases rest with _ | ⟨t2, rest2⟩
    · rw [hstep]; rfl
    · have ht2 : t2 = Token.Eof := hEof
      subst ht2; rw [hstep]; rfl
  · rintro t2 rest2 rfl hn hc hw he
    rw [hstep]
    cases t2 <;> first
      | exact absurd rfl hn
      | exact absurd rfl hc
      | exact absurd rfl hw
      | exact absurd rfl he
      | rfl

/-- C1 witness: the concrete instruction `wait 1` followed by a string
token fails with the `UnexpectedToken` error. -/
theorem C1_witness :
    Parser.parse [Token.Wait, Token.Int 1, Token.Str "x"]
      = .error (PError.unexpectedToken "newline or end of file" (Token.Str "x")) := by
  have h := C1_theorem [Token.Wait, Token.Int 1, Token.Str "x"] (Instruction.Wait 1)
    [Token.Str "x"] (by decide)
  exact h.2.2.2.2.2 (Token.Str "x") [] rfl (by decide) (by decide) (by decide) (by decide)

/-- C1 counterexample: the instruction `wait 1` followed immediately by a
Whitespace token parses successfully to `[Wait 1]` — the claim that a
Whitespace token after an instruction fails with `UnexpectedToken` is false
on the code (`Parser::parse` line 31 accepts `Token::Whitespace` as a
terminator). -/
theorem C1_counterexample :
    Parser.parse [Token.Wait, Token.Int 1, Token.Whitespace, Token.Eof]
      = .ok [Instruction.Wait 1]
    ∧ ∀ s t, Parser.parse [Token.Wait, Token.Int 1, Token.Whitespace, Token.Eof]
        ≠ .error (PError.unexpectedToken s t) := by
  have h : Parser.parse [Token.Wait, Token.Int 1, Token.Whitespace, Token.Eof]
      = .ok [Instruction.Wait 1] := by
    simp [Parser.parse, Parser.load, Parser.goto, Parser.print, Parser.printnl, Parser.insert,
      Parser.change, Parser.delete, Parser.speed, Parser.select, Parser.find, Parser.linepause,
      Parser.wait, takeTok, toU64, Except.map]
  exact ⟨h, fun s t => by simp [h]⟩

/-- C2 (corrected): without the spurious trailing double quote, the input
`load "foo.rs" as hoppy` parses to the single instruction
`Load("foo.rs", "hoppy")`. -/
theorem C2_theorem :
    parse "load \"foo.rs\" as hoppy" "//" = .ok [Instruction.Load "foo.rs" "hoppy"] := by
  have hlex : lex "load \"foo.rs\" as hoppy" "//"
      = .ok [Token.Load, Token.Str "foo.rs", Token.As, Token.Ident "hoppy", Token.Eof] := by
    decide
  simp [parse, hlex, Parser.parse, Parser.load, takeTok, Except.map]

/-- C2 counterexample: with its trailing double quote the input
`load "foo.rs" as hoppy"` contains an unterminated string literal, so the
pipeline fails at the lex stage and does not yield the Load instruction. -/
theorem C2_counterexample :
    parse "load \"foo.rs\" as hoppy\"" "//" = .error PError.lexError
    ∧ parse "load \"foo.rs\" as hoppy\"" "//" ≠ .ok [Instruction.Load "foo.rs" "hoppy"] := by
  have hlex : lex "load \"foo.rs\" as hoppy\"" "//" = .error PError.lexError := by decide
  have h : parse "load \"foo.rs\" as hoppy\"" "//" = .error PError.lexError := by
    simp [parse, hlex]
  exact ⟨h, by simp [h]⟩

/-- C3: `goto aaa` parses to a marker goto, `goto 1 2` and `goto -1 -2`
parse to relative gotos, and after `goto` a first integer operand makes a
second integer mandatory: a missing or non-integer second operand is an
`InvalidArgument` error. -/
theorem C3_theorem :
    parse "goto aaa" "//" = .ok [Instruction.Goto (Dest.Marker "aaa")]
    ∧ parse "goto 1 2" "//" = .ok [Instruction.Goto (Dest.Relative 1 2)]
    ∧ parse "goto -1 -2" "//" = .ok [Instruction.Goto (Dest.Relative (-1) (-2))]
    ∧ (∀ n : Int, Parser.goto [Token.Goto, Token.Int n]
        = .error (.invalidArg "number" Token.Eof))
    ∧ (∀ (n : Int) (t : Token) (rest : List Token), (∀ m : Int, t ≠ Token.Int m) →
        Parser.goto (Token.Goto :: Token.Int n :: t :: rest)
          = .error (.invalidArg "number" t)) := by
  refine ⟨?_, ?_, ?_, ?_, ?_⟩
  · have hlex : lex "goto aaa" "//" = .ok [Token.Goto, Token.Ident "aaa", Token.Eof] := by decide
    simp [parse, hlex, Parser.parse, Parser.load, Parser.goto, takeTok, Except.map]
  · have hlex : lex "goto 1 2" "//" = .ok [Token.Goto, Token.Int 1, Token.Int 2, Token.Eof] := by
      decide
    simp [parse, hlex, Parser.parse, Parser.load, Parser.goto, takeTok, toI32, Except.map]
  · have hlex : lex "goto -1 -2" "//"
        = .ok [Token.Goto, Token.Int (-1), Token.Int (-2), Token.Eof] := by decide
    simp [parse, hlex, Parser.parse, Parser.load, Parser.goto, takeTok, toI32, Except.map]
  · intro n
    simp [Parser.goto, takeTok]
  · intro n t rest hne
    cases t <;> first
      | exact absurd rfl (hne _)
      | simp [Parser.goto, takeTok]

/-- C3 witness: after `goto 1` a newline token in the second-integer slot
is rejected with the `InvalidArgument` error for category `number`. -/
theorem C3_witness :
    Parser.goto [Token.Goto, Token.Int 1, Token.Newline]
      = .error (PError.invalidArg "number" Token.Newline) := by
  exact C3_theorem.2.2.2.2 1 Token.Newline [] (fun m => by simp)

/-- C4: for every string-literal or identifier operand, `type` yields a
Type instruction with prefix_newline false and `typenl` one with
prefix_newline true, and in both forms trim_trailing_newline is true
exactly when the optional trailing `nonl` token is present. -/
theorem C4_theorem : ∀ (src : Source) (ts : List Token),
    Parser.load (Token.TypeKw :: Source.token src :: Token.NoNewline :: ts)
      = .ok (Instruction.TypeIns src true false, ts)
    ∧ (currentTok ts ≠ Token.NoNewline →
        Parser.load (Token.TypeKw :: Source.token src :: ts)
          = .ok (Instruction.TypeIns src false false, ts))
    ∧ Parser.load (Token.TypeNl :: Source.token src :: Token.NoNewline :: ts)
      = .ok (Instruction.TypeIns src true true, ts)
    ∧ (currentTok ts ≠ Token.NoNewline →
        Parser.load (Token.TypeNl :: Source.token src :: ts)
          = .ok (Instruction.TypeIns src false true, ts)) := by
  intro src ts
  refine ⟨?_, ?_, ?_, ?_⟩
  · cases src <;> simp [Parser.load, Parser.goto, Parser.print, Source.token, takeTok]
  · intro h
    cases src <;>
      (rcases ts with _ | ⟨t3, ts3⟩
       · simp [Parser.load, Parser.goto, Parser.print, Source.token, takeTok]
       · cases t3 <;> first
           | exact absurd rfl h
           | simp [Parser.load, Parser.goto, Parser.print, Source.token, takeTok])
  · cases src <;>
      simp [Parser.load, Parser.goto, Parser.print, Parser.printnl, Source.token, takeTok]
  · intro h
    cases src <;>
      (rcases ts with _ | ⟨t3, ts3⟩
       · simp [Parser.load, Parser.goto, Parser.print, Parser.printnl, Source.token, takeTok]
       · cases t3 <;> first
           | exact absurd rfl h
           | simp [Parser.load, Parser.goto, Parser.print, Parser.printnl, Source.token, takeTok])

/-- C4 witness: `type "a string"` with no `nonl` and an EndOfFile current
token yields the Type instruction with both flags false. -/
theorem C4_witness :
    Parser.load [Token.TypeKw, Token.Str "a string", Token.Eof]
      = .ok (Instruction.TypeIns (Source.Str "a string") false false, [Token.Eof]) := by
  exact (C4_theorem (Source.Str "a string") [Token.Eof]).2.1 (by decide)

/-- C5: the interleaved section-8 example parses to exactly the three
instructions, the empty source parses to the empty sequence, and every
token stream of only structural tokens parses to the empty sequence. -/
theorem C5_theorem :
    parse "\n\n        //\ngoto 1     2\n        //\n            wait 1\n            // waffles\n            wait 2\n            // waffles\n            " "//"
      = .ok [Instruction.Goto (Dest.Relative 1 2), Instruction.Wait 1, Instruction.Wait 2]
    ∧ parse "" "//" = .ok []
    ∧ (∀ ts : List Token,
        (∀ t ∈ ts, t = Token.Newline ∨ t = Token.Comment ∨ t = Token.Whitespace ∨ t = Token.Eof) →
        Parser.parse ts = .ok []) := by
  refine ⟨?_, ?_, parse_structural_only⟩
  · have hlex : lex "\n\n        //\ngoto 1     2\n        //\n            wait 1\n            // waffles\n            wait 2\n            // waffles\n            " "//"
        = .ok [Token.Newline, Token.Newline, Token.Comment, Token.Newline, Token.Goto, Token.Int 1,
            Token.Int 2, Token.Newline, Token.Comment, Token.Newline, Token.Wait, Token.Int 1,
            Token.Newline, Token.Comment, Token.Newline, Token.Wait, Token.Int 2, Token.Newline,
            Token.Comment, Token.Newline, Token.Eof] := by decide
    simp [parse, hlex, Parser.parse, Parser.load, Parser.goto, Parser.print, Parser.printnl,
      Parser.insert, Parser.change, Parser.delete, Parser.speed, Parser.select, Parser.find,
      Parser.linepause, Parser.wait, takeTok, toI32, toU64, Except.map]
  · have hlex : lex "" "//" = .ok [Token.Eof] := by decide
    simp [parse, hlex, Parser.parse]

/-- C5 witness: a concrete stream of only structural tokens parses to the
empty instruction sequence. -/
theorem C5_witness :
    Parser.parse [Token.Comment, Token.Whitespace, Token.Newline, Token.Eof] = .ok [] := by
  exact C5_theorem.2.2 [Token.Comment, Token.Whitespace, Token.Newline, Token.Eof] (by decide)

/-- C6: `load` requires string literal, `as`, identifier in that order,
yields `Load(path, key)` on success, and the first mismatching slot yields
an `InvalidArgument` error labelled "string", "as" or "ident"
respectively. -/
theorem C6_theorem :
    (∀ (path key : String) (ts : List Token),
        Parser.load (Token.Load :: Token.Str path :: Token.As :: Token.Ident key :: ts)
          = .ok (Instruction.Load path key, ts))
    ∧ (∀ ts : List Token,
        (∀ (s : String) (rest : List Token), takeTok ts ≠ (Token.Str s, rest)) →
        Parser.load (Token.Load :: ts) = .error (.invalidArg "string" (takeTok ts).1))
    ∧ (∀ (path : String) (ts : List Token),
        (∀ rest : List Token, takeTok ts ≠ (Token.As, rest)) →
        Parser.load (Token.Load :: Token.Str path :: ts)
          = .error (.invalidArg "as" (takeTok ts).1))
    ∧ (∀ (path : String) (ts : List Token),
        (∀ (s : String) (rest : List Token), takeTok ts ≠ (Token.Ident s, rest)) →
        Parser.load (Token.Load :: Token.Str path :: Token.As :: ts)
          = .error (.invalidArg "ident" (takeTok ts).1)) := by
  refine ⟨?_, ?_, ?_, ?_⟩
  · intro path key ts
    simp [Parser.load, takeTok]
  · intro ts h
    rcases ts with _ | ⟨t, rest⟩
    · simp [Parser.load, takeTok]
    · cases t <;> first
        | exact absurd rfl (h _ _)
        | simp [Parser.load, takeTok]
  · intro path ts h
    rcases ts with _ | ⟨t, rest⟩
    · simp [Parser.load, takeTok]
    · cases t <;> first
        | exact absurd rfl (h _)
        | simp [Parser.load, takeTok]
  · intro path ts h
    rcases ts with _ | ⟨t, rest⟩
    · simp [Parser.load, takeTok]
    · cases t <;> first
        | exact absurd rfl (h _ _)
        | simp [Parser.load, takeTok]

/-- C6 witness: an integer token in the path slot of `load` is rejected
with the `InvalidArgument` error labelled "string". -/
theorem C6_witness :
    Parser.load [Token.Load, Token.Int 7]
      = .error (PError.invalidArg "string" (Token.Int 7)) := by
  exact C6_theorem.2.1 [Token.Int 7] (by intro s rest hc; simp [takeTok] at hc)

/-- C7: when the current token is none of the eleven leading keywords of
the dispatch chain and is not `wait`, the final fallback stage fails with
an `InvalidInstruction` error carrying that token; conversely every
`InvalidInstruction` error produced by the dispatch chain carries the
current token, which is neither a leading keyword nor `wait`. -/
theorem C7_theorem :
    (∀ (t : Token) (ts : List Token), leadingKeyword t = false → t ≠ Token.Wait →
        Parser.load (t :: ts) = .error (.invalidInstruction t))
    ∧ Parser.load [] = .error (.invalidInstruction Token.Eof)
    ∧ (∀ (ts : List Token) (t : Token),
        Parser.load ts = .error (.invalidInstruction t) →
        currentTok ts = t ∧ leadingKeyword t = false ∧ t ≠ Token.Wait) := by
  refine ⟨?_, by decide, load_invalid_classify⟩
  intro t ts hlead hw
  cases t <;> first
    | exact absurd rfl hw
    | (simp [Parser.load, Parser.goto, Parser.print, Parser.printnl, Parser.insert, Parser.change,
        Parser.delete, Parser.speed, Parser.select, Parser.find, Parser.linepause, Parser.wait,
        takeTok]; done)
    | (exfalso; simp [leadingKeyword] at hlead)

/-- C7 witness: the keyword `as` cannot lead an instruction and is reported
as an unrecognized instruction by the final fallback stage. -/
theorem C7_witness :
    Parser.load [Token.As, Token.Int 3] = .error (PError.invalidInstruction Token.As) := by
  exact C7_theorem.1 Token.As [Token.Int 3] (by decide) (by decide)

/-- C8: any parsed instruction sequence containing a Goto whose destination
is a marker fails resolution with an `UndefinedMarker` error (the parsed
instruction set has no marker-defining construct, so no marker name has a
definition), while sequences whose Gotos are all Relative resolve to an
executable program unchanged. -/
theorem C8_theorem :
    (∀ (instructions : List Instruction) (name : String),
        Instruction.Goto (Dest.Marker name) ∈ instructions →
        ∃ m, compile instructions = .error (ResolveError.UndefinedMarker m))
    ∧ (∀ instructions : List Instruction,
        (∀ name, Instruction.Goto (Dest.Marker name) ∉ instructions) →
        compile instructions = .ok instructions) := by
  constructor
  · intro instructions name hmem
    have hdefs : markerDefs instructions = [] := markerDefsGo_eq_nil instructions 0
    obtain ⟨m, hm⟩ := resolveAll_error_of_marker instructions name hmem
    exact ⟨m, by simpa [compile, hdefs] using hm⟩
  · intro instructions h
    have hdefs : markerDefs instructions = [] := markerDefsGo_eq_nil instructions 0
    simpa [compile, hdefs] using resolveAll_ok_of_no_marker instructions h

/-- C8 witness: a goto to the undefined marker `aaa` fails resolution, and
a marker-free sequence resolves unchanged. -/
theorem C8_witness :
    (∃ m, compile [Instruction.Goto (Dest.Marker "aaa")]
      = .error (ResolveError.UndefinedMarker m))
    ∧ compile [Instruction.Goto (Dest.Relative 1 2), Instruction.Delete]
      = .ok [Instruction.Goto (Dest.Relative 1 2), Instruction.Delete] := by
  constructor
  · exact C8_theorem.1 [Instruction.Goto (Dest.Marker "aaa")] "aaa" (by simp)
  · exact C8_theorem.2 [Instruction.Goto (Dest.Relative 1 2), Instruction.Delete]
      (by intro name h; simp at h)

/-- C9: integer operands undergo no range validation: every lexed integer
is wrapped into the operand's target width by the cast (i32 for goto row
and column, u64 for speed, linepause and wait, u16 for select width and
height), so `speed -1` parses to `Speed(2^64 - 1)` and `select 65536 0`
parses to `Select{0, 0}`. -/
theorem C9_theorem :
    (∀ (r c : Int) (ts : List Token),
        Parser.load (Token.Goto :: Token.Int r :: Token.Int c :: ts)
          = .ok (Instruction.Goto (Dest.Relative (toI32 r) (toI32 c)), ts))
    ∧ (∀ (n : Int) (ts : List Token),
        Parser.load (Token.Speed :: Token.Int n :: ts)
          = .ok (Instruction.Speed (toU64 n), ts))
    ∧ (∀ (n : Int) (ts : List Token),
        Parser.load (Token.LinePause :: Token.Int n :: ts)
          = .ok (Instruction.LinePause (toU64 n), ts))
    ∧ (∀ (n : Int) (ts : List Token),
        Parser.load (Token.Wait :: Token.Int n :: ts)
          = .ok (Instruction.Wait (toU64 n), ts))
    ∧ (∀ (w h : Int) (ts : List Token),
        Parser.load (Token.Select :: Token.Int w :: Token.Int h :: ts)
          = .ok (Instruction.Select (toU16 w) (toU16 h), ts))
    ∧ parse "speed -1" "//" = .ok [Instruction.Speed (2 ^ 64 - 1)]
    ∧ parse "select 65536 0" "//" = .ok [Instruction.Select 0 0] := by
  refine ⟨?_, ?_, ?_, ?_, ?_, ?_, ?_⟩
  · intro r c ts
    simp [Parser.load, Parser.goto, takeTok]
  · intro n ts
    simp [Parser.load, Parser.goto, Parser.print, Parser.printnl, Parser.insert, Parser.change,
      Parser.delete, Parser.speed, takeTok]
  · intro n ts
    simp [Parser.load, Parser.goto, Parser.print, Parser.printnl, Parser.insert, Parser.change,
      Parser.delete, Parser.speed, Parser.select, Parser.find, Parser.linepause, takeTok]
  · intro n ts
    simp [Parser.load, Parser.goto, Parser.print, Parser.printnl, Parser.insert, Parser.change,
      Parser.delete, Parser.speed, Parser.select, Parser.find, Parser.linepause, Parser.wait,
      takeTok]
  · intro w h ts
    simp [Parser.load, Parser.goto, Parser.print, Parser.printnl, Parser.insert, Parser.change,
      Parser.delete, Parser.speed, Parser.select, takeTok]
  · have hlex : lex "speed -1" "//" = .ok [Token.Speed, Token.Int (-1), Token.Eof] := by decide
    simp [parse, hlex, Parser.parse, Parser.load, Parser.goto, Parser.print, Parser.printnl,
      Parser.insert, Parser.change, Parser.delete, Parser.speed, takeTok, toU64, Except.map]
  · have hlex : lex "select 65536 0" "//"
        = .ok [Token.Select, Token.Int 65536, Token.Int 0, Token.Eof] := by decide
    simp [parse, hlex, Parser.parse, Parser.load, Parser.goto, Parser.print, Parser.printnl,
      Parser.insert, Parser.change, Parser.delete, Parser.speed, Parser.select, takeTok, toU16,
      Except.map]

/-- C10: setting a key then loading it returns the value just set,
overwriting any earlier value for that key; loading under a different key
is unaffected by the set; and loading a key never set (in any sequence of
sets of other keys starting from the empty store) returns none. -/
theorem C10_theorem :
    (∀ (ctx : Context) (k v : String), (ctx.set k v).load k = some v)
    ∧ (∀ (ctx : Context) (k v k2 : String), k2 ≠ k →
        (ctx.set k v).load k2 = ctx.load k2)
    ∧ (∀ (ops : List (String × String)) (k : String), k ∉ ops.map Prod.fst →
        ((ops.foldl (fun c p => c.set p.1 p.2) Context.new).load k = none)) := by
  refine ⟨?_, fun ctx k v k2 h => set_load_ne ctx k v k2 h, ?_⟩
  · intro ctx k v
    simp [Context.set, Context.load, List.lookup]
  · intro ops
    suffices hgen : ∀ (ctx : Context) (k : String), k ∉ ops.map Prod.fst → ctx.load k = none →
        (ops.foldl (fun c p => c.set p.1 p.2) ctx).load k = none by
      intro k hk
      exact hgen Context.new k hk rfl
    induction ops with
    | nil => intro ctx k _ hload; simpa using hload
    | cons p rest ih =>
      intro ctx k hk hload
      have hne : k ≠ p.1 := by
        intro hkp
        exact hk (by simp [hkp])
      have hrest : k ∉ rest.map Prod.fst := by
        intro hmem
        exact hk (by simp [hmem])
      simpa using ih (ctx.set p.1 p.2) k hrest (by rw [set_load_ne ctx p.1 p.2 k hne]; exact hload)

/-- C10 witness: overwriting `a` then loading it yields the newest value,
an unrelated key is unaffected, and a never-set key loads none. -/
theorem C10_witness :
    ((Context.new.set "a" "1").set "a" "2").load "a" = some "2"
    ∧ ((Context.new.set "b" "3").set "a" "2").load "b" = some "3"
    ∧ ([("a", "1"), ("b", "2")].foldl (fun c p => c.set p.1 p.2) Context.new).load "z" = none := by
  refine ⟨C10_theorem.1 (Context.new.set "a" "1") "a" "2", ?_, ?_⟩
  · rw [C10_theorem.2.1 (Context.new.set "b" "3") "a" "2" "b" (by decide)]
    exact C10_theorem.1 Context.new "b" "3"
  · exact C10_theorem.2.2 [("a", "1"), ("b", "2")] "z" (by decide)
